import Mathlib

/-!
Shallow embedding of the core of LgtFindr+.py (Light Finder + for Maya):
version management (VersionManager), snapshot storage, the property
collector and the property applier (LightFinderFunctions).  External
collaborators (the filesystem, the Python json module, the Maya scene API)
are modelled by explicit state values and oracle parameters; the Python
functions themselves are translated branch by branch.
-/

namespace LightFinder

/-- Decimal digit character: the rendering used by Python str() for 0..9. -/
def digitChar (d : ℕ) : Char := Char.ofNat (48 + d)

/-- Little-endian decimal digits of n, with explicit fuel
(any fuel with n less than 10 to the fuel is exact). -/
def toDigitsRev (fuel n : ℕ) : List ℕ :=
  match fuel with
  | 0 => []
  | f + 1 => if n = 0 then [] else n % 10 :: toDigitsRev f (n / 10)

/-- Model of Python str(n) for a non-negative integer n. -/
def pyStr (n : ℕ) : String :=
  if n = 0 then "0" else String.mk (((toDigitsRev (n + 1) n).map digitChar).reverse)

/-- Model of Python int(s) on a string of ASCII digits. -/
def pyParseNat (s : String) : ℕ :=
  s.data.foldl (fun a c => a * 10 + (c.toNat - 48)) 0

/-- Model of Python str.isdigit (ASCII digits; true only on nonempty strings). -/
def pyIsDigit (s : String) : Bool :=
  !s.data.isEmpty && s.data.all Char.isDigit

lemma digitChar_toNat {d : ℕ} (h : d < 10) : (digitChar d).toNat = 48 + d := by
  interval_cases d <;> decide

lemma digitChar_isDigit {d : ℕ} (h : d < 10) : (digitChar d).isDigit = true := by
  interval_cases d <;> decide

/-- Value of a little-endian decimal digit list. -/
def decVal (l : List ℕ) : ℕ := l.foldr (fun d acc => d + 10 * acc) 0

lemma decVal_toDigitsRev : ∀ fuel n, n < 10 ^ fuel → decVal (toDigitsRev fuel n) = n := by
  intro fuel
  induction fuel with
  | zero =>
      intro n h
      have hn : n = 0 := by simpa [Nat.lt_one_iff] using h
      simp [toDigitsRev, decVal, hn]
  | succ f ih =>
      intro n h
      by_cases h0 : n = 0
      · simp [toDigitsRev, h0, decVal]
      · have hdiv : n / 10 < 10 ^ f := by
          have hmul : n < 10 ^ f * 10 := by
            have : (10 : ℕ) ^ (f + 1) = 10 ^ f * 10 := by ring
            omega
          exact (Nat.div_lt_iff_lt_mul (by norm_num)).mpr hmul
        have hrec := ih (n / 10) hdiv
        simp only [toDigitsRev, h0, if_false, decVal, List.foldr_cons] at *
        omega

lemma toDigitsRev_lt : ∀ fuel n d, d ∈ toDigitsRev fuel n → d < 10 := by
  intro fuel
  induction fuel with
  | zero => intro n d hd; simp [toDigitsRev] at hd
  | succ f ih =>
      intro n d hd
      by_cases h0 : n = 0
      · simp [toDigitsRev, h0] at hd
      · simp only [toDigitsRev, h0, if_false, List.mem_cons] at hd
        rcases hd with h | h
        · omega
        · exact ih _ _ h

lemma toDigitsRev_ne_nil {fuel n : ℕ} (hn : n ≠ 0) (hf : 0 < fuel) :
    toDigitsRev fuel n ≠ [] := by
  cases fuel with
  | zero => omega
  | succ f => simp [toDigitsRev, hn]

lemma lt_ten_pow (m : ℕ) : m < 10 ^ m := by
  induction m with
  | zero => decide
  | succ k ih =>
      have hp : (10 : ℕ) ^ (k + 1) = 10 * 10 ^ k := by ring
      have hpos : 0 < (10 : ℕ) ^ k := pow_pos (by norm_num) k
      nlinarith

lemma foldr_digits (l : List ℕ) (hl : ∀ d ∈ l, d < 10) :
    (l.map digitChar).foldr (fun c a => a * 10 + (c.toNat - 48)) 0 = decVal l := by
  induction l with
  | nil => simp [decVal]
  | cons d ds ih =>
      have hd : d < 10 := hl d (by simp)
      have ihh := ih (fun x hx => hl x (by simp [hx]))
      simp only [List.map_cons, List.foldr_cons, decVal] at ihh ⊢
      rw [ihh, digitChar_toNat hd]
      omega

/-- Rendering then parsing a natural number is the identity: the model of
the str/int round trip for version directory names. -/
lemma pyParseNat_pyStr (n : ℕ) : pyParseNat (pyStr n) = n := by
  by_cases h0 : n = 0
  · subst h0; decide
  · have hlt : n < 10 ^ (n + 1) :=
      lt_of_lt_of_le (lt_ten_pow n) (Nat.pow_le_pow_right (by norm_num) (Nat.le_succ n))
    unfold pyParseNat pyStr
    simp only [h0, if_false]
    show (((toDigitsRev (n + 1) n).map digitChar).reverse).foldl
        (fun a c => a * 10 + (c.toNat - 48)) 0 = n
    rw [List.foldl_reverse]
    have hr := foldr_digits (toDigitsRev (n + 1) n) (fun d hd => toDigitsRev_lt _ _ _ hd)
    calc ((toDigitsRev (n + 1) n).map digitChar).foldr
            (fun x y => y * 10 + (x.toNat - 48)) 0
        = ((toDigitsRev (n + 1) n).map digitChar).foldr
            (fun c a => a * 10 + (c.toNat - 48)) 0 := rfl
      _ = decVal (toDigitsRev (n + 1) n) := hr
      _ = n := decVal_toDigitsRev _ _ hlt

lemma pyStr_injective : Function.Injective pyStr := by
  intro a b h
  have := congrArg pyParseNat h
  simpa [pyParseNat_pyStr] using this

lemma pyStr_data_ne_nil (n : ℕ) : (pyStr n).data ≠ [] := by
  by_cases h0 : n = 0
  · subst h0; decide
  · unfold pyStr
    simp only [h0, if_false]
    intro hc
    have : toDigitsRev (n + 1) n = [] := by
      have h1 : ((toDigitsRev (n + 1) n).map digitChar).reverse = [] := hc
      have h2 : (toDigitsRev (n + 1) n).map digitChar = [] := by
        simpa using congrArg List.reverse h1
      simpa using congrArg List.length h2
    exact toDigitsRev_ne_nil h0 (by omega) this

lemma pyIsDigit_pyStr (n : ℕ) : pyIsDigit (pyStr n) = true := by
  by_cases h0 : n = 0
  · subst h0; decide
  · unfold pyIsDigit
    have hne := pyStr_data_ne_nil n
    have hall : (pyStr n).data.all Char.isDigit = true := by
      unfold pyStr
      simp only [h0, if_false]
      rw [List.all_eq_true]
      intro c hc
      simp only [List.mem_reverse, List.mem_map] at hc
      obtain ⟨d, hd, rfl⟩ := hc
      exact digitChar_isDigit (toDigitsRev_lt _ _ _ hd)
    rw [hall]
    simp [List.isEmpty_iff, hne]

/-- Model of Python str.lower on the ASCII strings used by type tags and
attribute names. -/
def strLower (s : String) : String := String.mk (s.data.map Char.toLower)

/-- Model of the Python substring test (needle in hay). -/
def strContains (hay needle : String) : Bool :=
  (List.range (hay.data.length + 1)).any (fun i => needle.data.isPrefixOf (hay.data.drop i))

/-- JSON-representable dynamic value: the values held in snapshot records
and returned by scene attribute reads (Python lists and tuples are both
modelled by arr). -/
inductive JVal where
  | null
  | bool (b : Bool)
  | num (q : ℚ)
  | str (s : String)
  | arr (elems : List JVal)
  | obj (fields : List (String × JVal))

/-- Python dict assignment d[k] = v on an insertion-ordered association
list with unique keys: replace in place if the key exists, else append. -/
def dictSet {α : Type} : List (String × α) → String → α → List (String × α)
  | [], k, v => [(k, v)]
  | p :: rest, k, v => if p.1 = k then (k, v) :: rest else p :: dictSet rest k v

/-- Python dict lookup d.get(k): first binding of k, if any. -/
def dictGet {α : Type} : List (String × α) → String → Option α
  | [], _ => none
  | p :: rest, k => if p.1 = k then some p.2 else dictGet rest k

lemma dictGet_dictSet_self {α : Type} (d : List (String × α)) (k : String) (v : α) :
    dictGet (dictSet d k v) k = some v := by
  induction d with
  | nil => simp [dictSet, dictGet]
  | cons p rest ih =>
      by_cases h : p.1 = k
      · simp [dictSet, dictGet, h]
      · simp [dictSet, dictGet, h, ih]

lemma dictGet_dictSet_ne {α : Type} (d : List (String × α)) {k k' : String} (v : α)
    (h : k' ≠ k) : dictGet (dictSet d k v) k' = dictGet d k' := by
  have hk : ¬ (k = k') := fun hc => h hc.symm
  induction d with
  | nil => simp [dictSet, dictGet, hk]
  | cons p rest ih =>
      by_cases hp : p.1 = k
      · subst hp
        simp [dictSet, dictGet, hk]
      · simp [dictSet, dictGet, hp, ih]

/-- Python truthiness of a JSON value (used by the custom-path check). -/
def jTruthy : JVal → Bool
  | .null => false
  | .bool b => b
  | .num q => !decide (q = 0)
  | .str s => !decide (s = "")
  | .arr xs => !xs.isEmpty
  | .obj fs => !fs.isEmpty

/-- Insertion into a list kept in descending order (model of one step of
Python sorted(.., reverse=True)). -/
def insertDesc (x : ℕ) : List ℕ → List ℕ
  | [] => [x]
  | y :: ys => if y ≤ x then x :: y :: ys else y :: insertDesc x ys

/-- Model of Python sorted(versions, reverse=True). -/
def sortDesc : List ℕ → List ℕ
  | [] => []
  | x :: xs => insertDesc x (sortDesc xs)

lemma length_insertDesc (x : ℕ) (l : List ℕ) :
    (insertDesc x l).length = l.length + 1 := by
  induction l with
  | nil => simp [insertDesc]
  | cons y ys ih =>
      by_cases h : y ≤ x
      · simp [insertDesc, h]
      · simp [insertDesc, h, ih]

lemma length_sortDesc (l : List ℕ) : (sortDesc l).length = l.length := by
  induction l with
  | nil => simp [sortDesc]
  | cons x xs ih => simp [sortDesc, length_insertDesc, ih]

lemma head_insertDesc (x : ℕ) (l : List ℕ) :
    (insertDesc x l).head?.getD 0 = max x (l.head?.getD 0) := by
  cases l with
  | nil => simp [insertDesc]
  | cons y ys =>
      by_cases h : y ≤ x
      · simp [insertDesc, h, Nat.max_eq_left h]
      · have : x ≤ y := by omega
        simp [insertDesc, h, Nat.max_eq_right this]

lemma head_sortDesc (l : List ℕ) :
    (sortDesc l).head?.getD 0 = l.foldr max 0 := by
  induction l with
  | nil => simp [sortDesc]
  | cons x xs ih => simp [sortDesc, head_insertDesc, ih]

lemma head_sortDesc_of_ne_nil {l : List ℕ} (h : l ≠ []) :
    (sortDesc l).head? = some (l.foldr max 0) := by
  have hlen : (sortDesc l).length ≠ 0 := by
    rw [length_sortDesc]
    simpa [List.length_eq_zero] using h
  cases hs : sortDesc l with
  | nil => simp [hs] at hlen
  | cons a t =>
      have := head_sortDesc l
      rw [hs] at this
      simpa using this

lemma insertDesc_bottom {x : ℕ} {l : List ℕ} (h : ∀ y ∈ l, x < y) :
    insertDesc x l = l ++ [x] := by
  induction l with
  | nil => simp [insertDesc]
  | cons y ys ih =>
      have hy : x < y := h y (by simp)
      have : ¬ y ≤ x := by omega
      simp only [insertDesc, this, if_false, List.cons_append]
      rw [ih (fun z hz => h z (by simp [hz]))]

lemma insertDesc_map_succ (x : ℕ) (l : List ℕ) :
    insertDesc (x + 1) (l.map (· + 1)) = (insertDesc x l).map (· + 1) := by
  induction l with
  | nil => simp [insertDesc]
  | cons y ys ih =>
      by_cases h : y ≤ x
      · have : y + 1 ≤ x + 1 := by omega
        simp [insertDesc, h, this]
      · have : ¬ (y + 1 ≤ x + 1) := by omega
        simp [insertDesc, h, this, ih]

lemma sortDesc_map_succ (l : List ℕ) :
    sortDesc (l.map (· + 1)) = (sortDesc l).map (· + 1) := by
  induction l with
  | nil => simp [sortDesc]
  | cons x xs ih => simp [sortDesc, ih, insertDesc_map_succ]

/-- The ascending list [1, 2, ..., n]. -/
def ascVersions (n : ℕ) : List ℕ := (List.range n).map (· + 1)

lemma mem_ascVersions_pos {n x : ℕ} (h : x ∈ ascVersions n) : 1 ≤ x := by
  unfold ascVersions at h
  simp only [List.mem_map] at h
  obtain ⟨i, _, rfl⟩ := h
  omega

lemma sortDesc_ascVersions (n : ℕ) :
    sortDesc (ascVersions n) = (ascVersions n).reverse := by
  induction n with
  | zero => simp [ascVersions, sortDesc]
  | succ k ih =>
      have hstep : ascVersions (k + 1) = 1 :: (ascVersions k).map (· + 1) := by
        unfold ascVersions
        rw [List.range_succ_eq_map]
        simp [List.map_map, Function.comp]
      rw [hstep]
      show insertDesc 1 (sortDesc ((ascVersions k).map (· + 1))) = _
      rw [sortDesc_map_succ, ih]
      have hmem : ∀ y ∈ ((ascVersions k).reverse).map (· + 1), 1 < y := by
        intro y hy
        simp only [List.mem_map, List.mem_reverse] at hy
        obtain ⟨z, hz, rfl⟩ := hy
        have := mem_ascVersions_pos hz
        omega
      rw [insertDesc_bottom hmem]
      simp [List.map_reverse]

lemma foldr_max_shift (l : List ℕ) (a : ℕ) :
    l.foldr max a = max a (l.foldr max 0) := by
  induction l with
  | nil => simp
  | cons x xs ih =>
      simp only [List.foldr_cons, ih]
      omega

lemma foldr_max_ascVersions (n : ℕ) : (ascVersions n).foldr max 0 = n := by
  induction n with
  | zero => simp [ascVersions]
  | succ k ih =>
      unfold ascVersions
      rw [List.range_succ]
      simp only [List.map_append, List.map_cons, List.map_nil, List.foldr_append]
      show (ascVersions k).foldr max (max (k + 1) 0) = k + 1
      rw [foldr_max_shift, ih]
      omega

/-- A directory entry of an asset directory on disk: its name and whether
it is a directory (VersionManager.get_versions filters on item.is_dir()). -/
structure Entry where
  name : String
  isDir : Bool
deriving DecidableEq

/-- The numeric versions among an entries of the asset directory, in iteration
order: the body of VersionManager.get_versions before sorting (keep the
subdirectories whose name is all digits, parsed with int). -/
def versionNums (entries : List Entry) : List ℕ :=
  (entries.filter (fun e => e.isDir && pyIsDigit e.name)).map (fun e => pyParseNat e.name)

/-- VersionManager.get_versions: numeric subdirectories of the asset
directory, sorted descending. -/
def get_versions (entries : List Entry) : List ℕ :=
  sortDesc (versionNums entries)

/-- VersionManager.get_latest_version: versions[0] if versions else None. -/
def get_latest (entries : List Entry) : Option ℕ :=
  (get_versions entries).head?

/-- Python (latest or 0): None and 0 are falsy, any other number is itself,
which coincides with Option.getD 0. -/
def pyOrZero : Option ℕ → ℕ
  | none => 0
  | some n => n

/-- The version number allocated by VersionManager.create_new_version:
(latest or 0) + 1. -/
def new_version (entries : List Entry) : ℕ :=
  pyOrZero (get_latest entries) + 1

/-- Path.mkdir(exist_ok=True) for a subdirectory: no change when a
directory of that name already exists, else a new directory entry is
appended.  (mkdir over an existing non-directory raises; that case is
never reached by the publish flow modelled here.) -/
def mkdirEntry (entries : List Entry) (n : String) : List Entry :=
  if entries.any (fun e => e.name = n && e.isDir) then entries
  else entries ++ [⟨n, true⟩]

/-- VersionManager.create_new_version: allocate (latest or 0) + 1, create
its directory (named str(new_version)) and return the number together with
the updated asset directory listing. -/
def create_new_version (entries : List Entry) : ℕ × List Entry :=
  let v := new_version entries
  (v, mkdirEntry entries (pyStr v))

/-- The asset directory after n successful publishes to a fresh asset
(each publish calls create_new_version; the record file it then writes
lives inside the version directory, not in the asset directory listing). -/
def publishN : ℕ → List Entry
  | 0 => []
  | n + 1 => (create_new_version (publishN n)).2

/-- Maximum of a list of naturals, 0 when empty. -/
def listMaxD (l : List ℕ) : ℕ := l.foldr max 0

/-- Content of the record file of a version: either a JSON document holding a
record object, or a document on which json.load raises. -/
inductive FileContent where
  | jval (v : List (String × JVal))
  | malformed

/-- Filesystem state of one asset of the store: the entries of the asset
directory and, keyed by version directory name, the content of the
asset.json record file inside it (absent key: no such file/path). -/
structure AssetFS where
  dirs : List Entry
  files : List (String × FileContent)

/-- VersionManager.publish_file.  It stamps _published (the current time,
passed in as now) and _asset_name onto the record of the caller in place, then
writes the record as <asset>/<version>/<asset>.json.  writeOk models
whether the open/json.dump step raises (the except branch prints and
returns False).  The returned record is the caller-visible dictionary
after the call. -/
def publish_file (st : AssetFS) (asset : String) (file_data : List (String × JVal))
    (now : String) (writeOk : Bool) : List (String × JVal) × AssetFS × Bool :=
  let v := new_version st.dirs
  let dirs2 := mkdirEntry st.dirs (pyStr v)
  let stamped := dictSet (dictSet file_data "_published" (.str now)) "_asset_name" (.str asset)
  if writeOk then
    (stamped, ⟨dirs2, dictSet st.files (pyStr v) (.jval stamped)⟩, true)
  else
    (stamped, ⟨dirs2, st.files⟩, false)

/-- VersionManager.load_file: if the record file exists, json.load it and
return the record; a missing path falls through to None and any exception
(modelled by malformed content) is caught and yields None. -/
def load_file (st : AssetFS) (version : ℕ) : Option (List (String × JVal)) :=
  match dictGet st.files (pyStr version) with
  | some (.jval v) => some v
  | some .malformed => none
  | none => none

/-- State of the env.json override record next to the default store path:
absent, unreadable (open or json.load raises, or the document is not an
object so data.get raises - all caught with a printed warning), or a
readable JSON object. -/
inductive EnvState where
  | absent
  | unreadable
  | readable (d : List (String × JVal))

/-- VersionManager.init root resolution: read custom_path from env.json
when possible; a truthy string redirects the root to
<custom_path>/Published_lights, anything else falls back to the default
path.  A truthy non-string custom_path reaches Path(custom_path) outside
the try block and raises (error case).  Both roots are mkdir-ed with
exist_ok=True (side effect not tracked here). -/
def initRoot (defaultPath : String) (env : EnvState) : Except Unit String :=
  let custom_path : Option JVal :=
    match env with
    | .readable d => dictGet d "custom_path"
    | _ => none
  match custom_path with
  | some v =>
      if jTruthy v then
        match v with
        | .str s => .ok (s ++ "/Published_lights")
        | _ => .error ()
      else .ok defaultPath
  | none => .ok defaultPath

lemma pyOrZero_eq_getD (o : Option ℕ) : pyOrZero o = o.getD 0 := by
  cases o <;> rfl

lemma new_version_eq (es : List Entry) :
    new_version es = listMaxD (versionNums es) + 1 := by
  unfold new_version get_latest get_versions listMaxD
  rw [pyOrZero_eq_getD, head_sortDesc]

/-- The asset directory listing that n publishes to a fresh asset build up:
version directories 1, 2, ..., n in creation order. -/
def entriesN (n : ℕ) : List Entry :=
  (List.range n).map (fun i => ⟨pyStr (i + 1), true⟩)

lemma versionNums_append (a b : List Entry) :
    versionNums (a ++ b) = versionNums a ++ versionNums b := by
  unfold versionNums
  rw [List.filter_append, List.map_append]

lemma entriesN_succ (n : ℕ) : entriesN (n + 1) = entriesN n ++ [⟨pyStr (n + 1), true⟩] := by
  unfold entriesN
  rw [List.range_succ]
  simp

lemma versionNums_entriesN (n : ℕ) : versionNums (entriesN n) = ascVersions n := by
  induction n with
  | zero => simp [entriesN, versionNums, ascVersions]
  | succ k ih =>
      rw [entriesN_succ, versionNums_append, ih]
      have h1 : versionNums [⟨pyStr (k + 1), true⟩] = [k + 1] := by
        unfold versionNums
        simp [List.filter, pyIsDigit_pyStr, pyParseNat_pyStr]
      rw [h1]
      unfold ascVersions
      rw [List.range_succ]
      simp

lemma new_version_entriesN (n : ℕ) : new_version (entriesN n) = n + 1 := by
  rw [new_version_eq, versionNums_entriesN]
  unfold listMaxD
  rw [foldr_max_ascVersions]

lemma create_new_version_eq (es : List Entry) :
    create_new_version es = (new_version es, mkdirEntry es (pyStr (new_version es))) := rfl

lemma publishN_eq (n : ℕ) : publishN n = entriesN n := by
  induction n with
  | zero => rfl
  | succ k ih =>
      show (create_new_version (publishN k)).2 = entriesN (k + 1)
      rw [ih, create_new_version_eq]
      show mkdirEntry (entriesN k) (pyStr (new_version (entriesN k))) = entriesN (k + 1)
      rw [new_version_entriesN]
      unfold mkdirEntry
      have hany : (entriesN k).any (fun e => e.name = pyStr (k + 1) && e.isDir) = false := by
        rw [List.any_eq_false]
        intro e he
        unfold entriesN at he
        simp only [List.mem_map, List.mem_range] at he
        obtain ⟨i, hi, rfl⟩ := he
        simp only [Bool.and_eq_true, decide_eq_true_eq, not_and]
        intro hc
        have := pyStr_injective hc
        omega
      rw [hany]
      simp only [Bool.false_eq_true, if_false]
      exact (entriesN_succ k).symm

lemma get_versions_publishN (N : ℕ) :
    get_versions (publishN N) = (ascVersions N).reverse := by
  unfold get_versions
  rw [publishN_eq, versionNums_entriesN, sortDesc_ascVersions]

lemma get_latest_publishN {N : ℕ} (h : 0 < N) : get_latest (publishN N) = some N := by
  unfold get_latest get_versions
  rw [publishN_eq, versionNums_entriesN]
  have hne : ascVersions N ≠ [] := by
    intro hc
    have := congrArg List.length hc
    simp [ascVersions] at this
    omega
  rw [head_sortDesc_of_ne_nil hne, foldr_max_ascVersions]

/-- Claim C1: version allocation is max-plus-one and never reuses numbers:
create_new_version allocates max(existing numeric versions) + 1 (so 1 when
the asset has no versions); after N publishes to a fresh asset,
get_versions returns exactly the descending list N, ..., 1 and
get_latest_version returns N; and on an asset whose version directories
are 1, 3 and 5 the allocated version is 6, not 2 or 4. -/
theorem C1_version_allocation :
    (∀ es, new_version es = listMaxD (versionNums es) + 1) ∧
    (∀ es, versionNums es = [] → new_version es = 1) ∧
    (∀ N, get_versions (publishN N) = (ascVersions N).reverse) ∧
    (∀ N, 0 < N → get_latest (publishN N) = some N) ∧
    new_version [⟨"1", true⟩, ⟨"3", true⟩, ⟨"5", true⟩] = 6 := by
  refine ⟨new_version_eq, ?_, get_versions_publishN, fun N h => get_latest_publishN h, by decide⟩
  intro es h
  rw [new_version_eq, h]
  rfl

/-- Witness for C1: instantiating the hypotheses at N = 3, the latest
version after three publishes to a fresh asset is 3. -/
theorem C1_witness : versionNums [] = [] ∧ new_version [] = 1 ∧
    0 < 3 ∧ get_latest (publishN 3) = some 3 :=
  ⟨rfl, C1_version_allocation.2.1 [] rfl, by decide,
    C1_version_allocation.2.2.2.1 3 (by decide)⟩

/-- Claim C2: round trip through the codec: publishing a record (success
path) and loading it back at the allocated version yields exactly the
record that was written, whose lights and description entries are those of
the input record, and in which _published and _asset_name are present with
the stamped values, overwriting any values those keys had in the input. -/
theorem C2_roundtrip (st : AssetFS) (asset : String) (data : List (String × JVal))
    (now : String) :
    load_file (publish_file st asset data now true).2.1 (new_version st.dirs) =
      some (publish_file st asset data now true).1 ∧
    dictGet (publish_file st asset data now true).1 "lights" = dictGet data "lights" ∧
    dictGet (publish_file st asset data now true).1 "description" =
      dictGet data "description" ∧
    dictGet (publish_file st asset data now true).1 "_published" = some (.str now) ∧
    dictGet (publish_file st asset data now true).1 "_asset_name" = some (.str asset) := by
  unfold publish_file load_file
  simp only [if_true]
  refine ⟨?_, ?_, ?_, ?_, ?_⟩
  · rw [dictGet_dictSet_self]
  · rw [dictGet_dictSet_ne _ _ (by decide), dictGet_dictSet_ne _ _ (by decide)]
  · rw [dictGet_dictSet_ne _ _ (by decide), dictGet_dictSet_ne _ _ (by decide)]
  · rw [dictGet_dictSet_ne _ _ (by decide), dictGet_dictSet_self]
  · rw [dictGet_dictSet_self]

/-- Claim C3: load_file is total and returns absence rather than raising:
when the record file does not exist (no entry for the version path) or the
stored document fails to deserialize (malformed), the result is None; the
function is total, so no exception propagates. -/
theorem C3_load_absence (st : AssetFS) (version : ℕ)
    (h : dictGet st.files (pyStr version) = none ∨
         dictGet st.files (pyStr version) = some .malformed) :
    load_file st version = none := by
  unfold load_file
  rcases h with h | h <;> rw [h]

/-- Witness for C3: loading version 1 from an empty store yields None. -/
theorem C3_witness : load_file ⟨[], []⟩ 1 = none :=
  C3_load_absence ⟨[], []⟩ 1 (Or.inl rfl)

/-- Claim C10: publish_file mutates the record dictionary of the caller,
inserting _published and _asset_name before writing; the caller-visible
record is the stamped one whether or not the write succeeds, and a failed
write leaves the files on disk unchanged while returning False. -/
theorem C10_stamp_persists (st : AssetFS) (asset : String) (data : List (String × JVal))
    (now : String) (writeOk : Bool) :
    (publish_file st asset data now writeOk).1 =
      dictSet (dictSet data "_published" (.str now)) "_asset_name" (.str asset) ∧
    dictGet (publish_file st asset data now writeOk).1 "_published" = some (.str now) ∧
    dictGet (publish_file st asset data now writeOk).1 "_asset_name" = some (.str asset) ∧
    (publish_file st asset data now writeOk).2.2 = writeOk ∧
    (writeOk = false → (publish_file st asset data now writeOk).2.1.files = st.files) := by
  unfold publish_file
  cases writeOk <;>
    simp [dictGet_dictSet_self, dictGet_dictSet_ne _ _ (by decide : ("_published" : String) ≠ "_asset_name")]

/-- Witness for C10: a failed write still returns the stamped record and
leaves the files of the store unchanged. -/
theorem C10_witness :
    dictGet (publish_file ⟨[], []⟩ "a" [] "t" false).1 "_published" = some (.str "t") ∧
    (publish_file ⟨[], []⟩ "a" [] "t" false).2.1.files = ([] : List (String × FileContent)) := by
  have h := C10_stamp_persists ⟨[], []⟩ "a" [] "t" false
  exact ⟨h.2.1, h.2.2.2.2 rfl⟩

/-- Claim C9: store root resolution at construction: a readable env.json
with a non-empty string custom_path redirects the root to
<custom_path>/Published_lights; an absent or unreadable override record
(any error reading it is caught, hence non-fatal), a missing custom_path
key, or an empty custom_path all fall back to the default per-user path. -/
theorem C9_root_resolution :
    (∀ dp, initRoot dp .absent = .ok dp) ∧
    (∀ dp, initRoot dp .unreadable = .ok dp) ∧
    (∀ dp d s, s ≠ "" → dictGet d "custom_path" = some (.str s) →
        initRoot dp (.readable d) = .ok (s ++ "/Published_lights")) ∧
    (∀ dp d, dictGet d "custom_path" = none → initRoot dp (.readable d) = .ok dp) ∧
    (∀ dp d, dictGet d "custom_path" = some (.str "") →
        initRoot dp (.readable d) = .ok dp) := by
  refine ⟨fun dp => rfl, fun dp => rfl, ?_, ?_, ?_⟩
  · intro dp d s hs hget
    simp only [initRoot, hget]
    simp [jTruthy, hs]
  · intro dp d hget
    simp only [initRoot, hget]
  · intro dp d hget
    simp only [initRoot, hget]
    simp [jTruthy]

/-- Witness for C9: a readable override with custom_path "/x" redirects
the root to /x/Published_lights. -/
theorem C9_witness :
    initRoot "/home/user/LgtFindr_maya" (.readable [("custom_path", .str "/x")]) =
      .ok ("/x" ++ "/Published_lights") :=
  C9_root_resolution.2.2.1 "/home/user/LgtFindr_maya" [("custom_path", .str "/x")] "/x"
    (by decide) rfl

/-- The Maya scene as seen by the property collector (read-only queries):
listRelatives(x, shapes=True) as a list (empty for None), objectType,
listAttr(x, keyable=True), listAttr(shapes) over a list of shapes, and
getAttr by full attribute path (none models a raised, caught error). -/
structure CollectScene where
  listShapesOf : String → List String
  objType : String → String
  keyableAttrs : String → List String
  listAttrAll : List String → List String
  getAttr : String → Option JVal

/-- The value-normalization branch of collect_light_properties: a list or
tuple of length 1 is unwrapped to its single element, any other list or
tuple is stored as a list, and every other value passes through. -/
def normalizeValue : JVal → JVal
  | .arr xs =>
      match xs with
      | [x] => x
      | _ => .arr xs
  | v => v

/-- LightFinderFunctions.get_arnold_attributes: all attributes of the
shapes whose name contains the substring ai (case-sensitive). -/
def get_arnold_attributes (sc : CollectScene) (shapes : List String) : List String :=
  if shapes.isEmpty then []
  else (sc.listAttrAll shapes).filter (fun a => strContains a "ai")

/-- One attribute read of the collector: getAttr node.attr, normalize,
store under the attribute name; a failed read is swallowed (the per
attribute except branch). -/
def readInto (sc : CollectScene) (node : String) (d : List (String × JVal))
    (attr : String) : List (String × JVal) :=
  match sc.getAttr (node ++ "." ++ attr) with
  | some v => dictSet d attr (normalizeValue v)
  | none => d

/-- The captured data of one light (the light_data dictionary). -/
structure LightData where
  name : String
  type : String
  attributes : List (String × JVal)
  transform : List (String × JVal)

/-- The transform-attribute keywords of collect_light_properties. -/
def transformKeywords : List String := ["translate", "rotate", "scale", "shear"]

/-- The body of collect_light_properties for one light: resolve the first
shape (skip the light when there is none), collect keyworded keyable
transform attributes, the keyable attributes of the shape, then merge in the
Arnold (ai) attributes of the shapes. -/
def collectLight (sc : CollectScene) (light : String) : Option LightData :=
  match sc.listShapesOf light with
  | [] => none
  | shape :: _ =>
      let tdict := (sc.keyableAttrs light).foldl
        (fun d attr =>
          if transformKeywords.any (fun kw => strContains (strLower attr) kw) then
            readInto sc light d attr
          else d) []
      let adict := (sc.keyableAttrs shape).foldl (readInto sc shape) []
      let arnold := get_arnold_attributes sc (sc.listShapesOf light)
      some ⟨light, sc.objType shape, arnold.foldl (readInto sc shape) adict, tdict⟩

/-- LightFinderFunctions.collect_light_properties: the lights list of the
resulting record (lights whose shape resolution fails are skipped). -/
def collect_light_properties (sc : CollectScene) (lights : List String) : List LightData :=
  lights.filterMap (collectLight sc)

lemma dictGet_foldl_readInto_not_mem (sc : CollectScene) (node : String) :
    ∀ (attrs : List String) (d : List (String × JVal)) (k : String), k ∉ attrs →
      dictGet (attrs.foldl (readInto sc node) d) k = dictGet d k := by
  intro attrs
  induction attrs with
  | nil => intro d k _; rfl
  | cons a rest ih =>
      intro d k hk
      have hka : k ≠ a := fun hc => hk (by simp [hc])
      have hkr : k ∉ rest := fun hc => hk (by simp [hc])
      show dictGet (rest.foldl (readInto sc node) (readInto sc node d a)) k = dictGet d k
      rw [ih _ _ hkr]
      unfold readInto
      cases sc.getAttr (node ++ "." ++ a) with
      | none => rfl
      | some v => exact dictGet_dictSet_ne _ _ hka

lemma dictGet_foldl_readInto (sc : CollectScene) (node : String) {k : String} {v : JVal}
    (hv : sc.getAttr (node ++ "." ++ k) = some v) :
    ∀ (attrs : List String) (d : List (String × JVal)),
      dictGet (attrs.foldl (readInto sc node) d) k =
        if k ∈ attrs then some (normalizeValue v) else dictGet d k := by
  intro attrs
  induction attrs with
  | nil => intro d; simp
  | cons a rest ih =>
      intro d
      show dictGet (rest.foldl (readInto sc node) (readInto sc node d a)) k = _
      by_cases hak : a = k
      · subst hak
        rw [ih]
        have hstep : dictGet (readInto sc node d a) a = some (normalizeValue v) := by
          unfold readInto
          rw [hv, dictGet_dictSet_self]
        by_cases hkr : a ∈ rest
        · simp [hkr]
        · simp [hkr, hstep]
      · have hka : ¬ (k = a) := fun hc => hak hc.symm
        rw [ih]
        have hstep : dictGet (readInto sc node d a) k = dictGet d k := by
          unfold readInto
          cases sc.getAttr (node ++ "." ++ a) with
          | none => rfl
          | some w => exact dictGet_dictSet_ne _ _ hka
        by_cases hkr : k ∈ rest
        · simp [hkr]
        · simp [hkr, hka, hstep, List.mem_cons]

/-- Concrete scene for the collector example: one light L whose transform
has keyable translateX = 5.0 and scale = (1, 1, 1). -/
def exScene : CollectScene where
  listShapesOf x := if x = "L" then ["Lshape"] else []
  objType _ := "pointLight"
  keyableAttrs x := if x = "L" then ["translateX", "scale"] else []
  listAttrAll _ := []
  getAttr p :=
    if p = "L.translateX" then some (.num 5)
    else if p = "L.scale" then some (.arr [.num 1, .num 1, .num 1]) else none

/-- Claim C7: collector value normalization: a sequence of length 1 is
unwrapped to its single element, a longer sequence is stored as an ordered
list, any non-sequence passes through unchanged; a translateX read of 5.0
is stored as the scalar 5.0 and a scale read of (1,1,1) as the 3-element
sequence. -/
theorem C7_value_normalization :
    (∀ x, normalizeValue (.arr [x]) = x) ∧
    (∀ xs, 1 < xs.length → normalizeValue (.arr xs) = .arr xs) ∧
    (∀ v, (∀ xs, v ≠ .arr xs) → normalizeValue v = v) ∧
    collectLight exScene "L" =
      some ⟨"L", "pointLight", [],
        [("translateX", .num 5), ("scale", .arr [.num 1, .num 1, .num 1])]⟩ := by
  refine ⟨fun x => rfl, ?_, ?_, rfl⟩
  · intro xs h
    cases xs with
    | nil => simp at h
    | cons x t =>
        cases t with
        | nil => simp at h
        | cons y r => rfl
  · intro v hv
    cases v with
    | arr xs => exact absurd rfl (hv xs)
    | null => rfl
    | bool b => rfl
    | num q => rfl
    | str s => rfl
    | obj fs => rfl

/-- Witness for C7: the length and non-sequence hypotheses discharged at
the sequence (1,1,1) and the string value. -/
theorem C7_witness :
    normalizeValue (.arr [.num 1, .num 1, .num 1]) = .arr [.num 1, .num 1, .num 1] ∧
    normalizeValue (.str "x") = .str "x" :=
  ⟨C7_value_normalization.2.1 [.num 1, .num 1, .num 1] (by decide),
   C7_value_normalization.2.2.1 (.str "x") (fun xs h => JVal.noConfusion h)⟩

/-- Claim C8: renderer-attribute merge: the Arnold pass reads exactly the
shape attributes whose name contains ai, and for every such attribute
whose read succeeds the final attributes mapping holds the value of that
later pass (last write wins), while attributes outside the Arnold pass
keep the value left by the keyable pass. -/
theorem C8_arnold_merge (sc : CollectScene) (light shape : String) (rest : List String)
    (hshapes : sc.listShapesOf light = shape :: rest) :
    get_arnold_attributes sc (shape :: rest) =
      (sc.listAttrAll (shape :: rest)).filter (fun a => strContains a "ai") ∧
    ∃ ld, collectLight sc light = some ld ∧
      (∀ attr v, attr ∈ get_arnold_attributes sc (shape :: rest) →
          sc.getAttr (shape ++ "." ++ attr) = some v →
          dictGet ld.attributes attr = some (normalizeValue v)) ∧
      (∀ attr, attr ∉ get_arnold_attributes sc (shape :: rest) →
          dictGet ld.attributes attr =
            dictGet ((sc.keyableAttrs shape).foldl (readInto sc shape) []) attr) := by
  constructor
  · rfl
  · simp only [collectLight, hshapes]
    refine ⟨_, rfl, ?_, ?_⟩
    · intro attr v hmem hv
      show dictGet ((get_arnold_attributes sc (shape :: rest)).foldl (readInto sc shape)
        ((sc.keyableAttrs shape).foldl (readInto sc shape) [])) attr = some (normalizeValue v)
      rw [dictGet_foldl_readInto sc shape hv]
      simp [hmem]
    · intro attr hmem
      exact dictGet_foldl_readInto_not_mem sc shape _ _ _ hmem

/-- Concrete scene for the C8 witness: one shape S with an Arnold
attribute aiExposure = 2. -/
def exScene2 : CollectScene where
  listShapesOf x := if x = "L" then ["S"] else []
  objType _ := "aiAreaLight"
  keyableAttrs _ := []
  listAttrAll ss := if ss = ["S"] then ["aiExposure"] else []
  getAttr p := if p = "S.aiExposure" then some (.num 2) else none

/-- Witness for C8: the merged attributes of L hold the Arnold-pass value
of aiExposure. -/
theorem C8_witness :
    ∃ ld, collectLight exScene2 "L" = some ld ∧
      dictGet ld.attributes "aiExposure" = some (normalizeValue (.num 2)) := by
  obtain ⟨-, ld, hld, hmem, -⟩ := C8_arnold_merge exScene2 "L" "S" [] rfl
  exact ⟨ld, hld, hmem "aiExposure" (.num 2) (by decide) rfl⟩

/-- A node of the Maya scene graph as the applier sees it. -/
structure SNode where
  name : String
  parent : Option String
  isShape : Bool
deriving DecidableEq

/-- Scene state for the applier: the nodes, the Maya counter for naming
auto-created transforms, and the current selection. -/
structure Scene where
  nodes : List SNode
  counter : ℕ
  selection : List String
deriving DecidableEq

def sceneNames (sc : Scene) : List String := sc.nodes.map SNode.name

/-- cmds.objExists over a list of scene object names. -/
def objExistsL (names : List String) (n : String) : Bool :=
  names.any (fun m => m = n)

/-- The k-th candidate tried by the collision loop of
apply_light_properties: the stored name itself, then name_1, name_2, ... -/
def candName (name : String) : ℕ → String
  | 0 => name
  | k + 1 => name ++ "_" ++ pyStr (k + 1)

/-- The while cmds.objExists(light_name) loop, with fuel
(names.length + 1 candidates always suffice, see uniqueName_spec). -/
def uniqueNameAux (names : List String) (name : String) : ℕ → ℕ → String
  | 0, k => candName name k
  | fuel + 1, k =>
      if objExistsL names (candName name k) then uniqueNameAux names name fuel (k + 1)
      else candName name k

/-- The unique target identifier the applier resolves for a stored name. -/
def uniqueName (names : List String) (name : String) : String :=
  uniqueNameAux names name (names.length + 1) 0

/-- The creation operation selected by the type cascade. -/
inductive LightKind where
  | aiAreaLightNode
  | meshNode
  | directional
  | point
  | spot
  | areaFallback
deriving DecidableEq

/-- The ordered substring cascade on the stored type string in
apply_light_properties (first match wins). -/
def chooseKind (light_type : String) : LightKind :=
  if strContains light_type "aiAreaLight" then .aiAreaLightNode
  else if strContains light_type "aiMesh" then .meshNode
  else if strContains (strLower light_type) "directional" then .directional
  else if strContains (strLower light_type) "point" then .point
  else if strContains (strLower light_type) "spot" then .spot
  else .areaFallback

/-- One stored light of a decoded record (light_data and its fields). -/
structure LightEntry where
  name : String
  type : String
  attributes : List (String × JVal)
  transform : List (String × JVal)

/-- cmds.createNode(shapeType, name=n): creates the shape node named n
under a freshly auto-created transform (Maya names those transform1,
transform2, ...) and returns the shape.  Maya resolves requested-name
collisions externally; that behaviour is not modelled and not exercised
here. -/
def createShapeNode (sc : Scene) (n : String) : String × Scene :=
  let t := "transform" ++ pyStr (sc.counter + 1)
  (n, ⟨sc.nodes ++ [⟨t, none, false⟩, ⟨n, some t, true⟩], sc.counter + 1, sc.selection⟩)

/-- cmds.pointLight / spotLight / directionalLight(name=n): creates the
transform named n holding a light shape named nShape and returns the
shape. -/
def createLightCmd (sc : Scene) (n : String) : String × Scene :=
  (n ++ "Shape",
    ⟨sc.nodes ++ [⟨n, none, false⟩, ⟨n ++ "Shape", some n, true⟩], sc.counter, sc.selection⟩)

/-- cmds.listRelatives(x, shapes=True) on the scene of the applier. -/
def listShapesS (sc : Scene) (x : String) : List String :=
  (sc.nodes.filter (fun nd => nd.parent = some x && nd.isShape)).map SNode.name

/-- cmds.listRelatives(x, parent=True), first entry. -/
def parentOfS (sc : Scene) (x : String) : Option String :=
  match sc.nodes.find? (fun nd => nd.name = x) with
  | some nd => nd.parent
  | none => none

/-- Accumulated state of the light loop: the scene and created_lights. -/
structure ApplyAcc where
  scene : Scene
  created : List String

/-- One iteration of the light loop of apply_light_properties: resolve a
collision-free name, create the node for the stored type (createOk models
the caught per-light creation failure: on failure the warning is printed
and the loop continues), resolve the shape and transform of the created node,
and record the created object.  Attribute application in the source only
mutates scene attribute values and feeds the printed diagnostic counters
(per-attribute failures are caught individually); no claim observes
attribute values, so they are not tracked in the scene state. -/
def applyEntry (createOk : Bool) (acc : ApplyAcc) (e : LightEntry) : ApplyAcc :=
  let lname := uniqueName (sceneNames acc.scene) e.name
  if createOk then
    let res :=
      match chooseKind e.type with
      | .aiAreaLightNode => createShapeNode acc.scene (lname ++ "Shape")
      | .meshNode => createShapeNode acc.scene lname
      | .directional => createLightCmd acc.scene lname
      | .point => createLightCmd acc.scene lname
      | .spot => createLightCmd acc.scene lname
      | .areaFallback => createShapeNode acc.scene lname
    let newLight := res.1
    let sc1 := res.2
    let createdObj :=
      match listShapesS sc1 newLight with
      | [] =>
          match parentOfS sc1 newLight with
          | some t => t
          | none => newLight
      | _ :: _ => newLight
    ⟨sc1, acc.created ++ [createdObj]⟩
  else acc

/-- The light loop, each entry processed independently (the per-entry
oracle index models which creation calls raise). -/
def applyGo (oracle : ℕ → Bool) : List LightEntry → ℕ → ApplyAcc → ApplyAcc
  | [], _, acc => acc
  | e :: es, i, acc => applyGo oracle es (i + 1) (applyEntry (oracle i) acc e)

/-- Result of apply_light_properties: the returned Bool, the scene after
the call and the created_lights list. -/
structure ApplyResult where
  ok : Bool
  scene : Scene
  created : List String

/-- LightFinderFunctions.apply_light_properties: process each stored light
independently, then select the created lights and return True when at
least one was created, else False (all failure paths are caught). -/
def apply_light_properties (oracle : ℕ → Bool) (sc : Scene) (entries : List LightEntry) :
    ApplyResult :=
  let acc := applyGo oracle entries 0 ⟨sc, []⟩
  if acc.created.isEmpty then ⟨false, acc.scene, acc.created⟩
  else ⟨true, ⟨acc.scene.nodes, acc.scene.counter, acc.created⟩, acc.created⟩

/-- The always-succeeding creation oracle. -/
def allOk : ℕ → Bool := fun _ => true

/-- An empty Maya scene. -/
def emptyScene : Scene := ⟨[], 0, []⟩

/-- A scene already holding an object named key1. -/
def sceneWithKey1 : Scene := ⟨[⟨"key1", none, false⟩], 0, []⟩

/-- A stored spot light entry. -/
def spotEntry (n : String) : LightEntry := ⟨n, "spotLight", [], []⟩

/-- A stored Arnold area light entry. -/
def aiAreaEntry (n : String) : LightEntry := ⟨n, "aiAreaLight", [], []⟩

lemma objExistsL_iff (names : List String) (n : String) :
    objExistsL names n = true ↔ n ∈ names := by
  unfold objExistsL
  rw [List.any_eq_true]
  constructor
  · rintro ⟨m, hm, he⟩
    have hmn : m = n := by simpa using he
    rw [← hmn]
    exact hm
  · intro h
    exact ⟨n, h, by simp⟩

lemma candName_inj (name : String) : Function.Injective (candName name) := by
  have hlen : ∀ k, (candName name (k + 1)).length = name.length + 1 + (pyStr (k + 1)).length := by
    intro k
    show ((name ++ "_") ++ pyStr (k + 1)).length = _
    rw [String.length_append, String.length_append]
    rfl
  have hppos : ∀ m : ℕ, 0 < (pyStr m).length := by
    intro m
    have := pyStr_data_ne_nil m
    show 0 < (pyStr m).data.length
    exact List.length_pos.mpr this
  intro i j h
  cases i with
  | zero =>
      cases j with
      | zero => rfl
      | succ j2 =>
          exfalso
          have hl := congrArg String.length h
          rw [hlen j2] at hl
          have := hppos (j2 + 1)
          simp [candName] at hl
          omega
  | succ i2 =>
      cases j with
      | zero =>
          exfalso
          have hl := congrArg String.length h
          rw [hlen i2] at hl
          have := hppos (i2 + 1)
          simp [candName] at hl
          omega
      | succ j2 =>
          have hd := congrArg String.data h
          show i2 + 1 = j2 + 1
          have hd2 : (name ++ "_").data ++ (pyStr (i2 + 1)).data =
              (name ++ "_").data ++ (pyStr (j2 + 1)).data := by
            rw [← String.data_append, ← String.data_append]
            exact hd
          have hps : pyStr (i2 + 1) = pyStr (j2 + 1) :=
            String.ext (List.append_cancel_left hd2)
          exact pyStr_injective hps

lemma exists_free_cand (names : List String) (name : String) :
    ∃ j, j ≤ names.length ∧ objExistsL names (candName name j) = false := by
  by_contra hc
  push_neg at hc
  have hmem : ∀ j ∈ Finset.range (names.length + 1), candName name j ∈ names.toFinset := by
    intro j hj
    rw [Finset.mem_range] at hj
    have hne := hc j (by omega)
    rw [List.mem_toFinset, ← objExistsL_iff]
    cases hb : objExistsL names (candName name j) with
    | false => exact absurd hb hne
    | true => rfl
  have hinj : Set.InjOn (candName name) (Finset.range (names.length + 1)) :=
    fun a _ b _ hab => candName_inj name hab
  have hcard := Finset.card_le_card_of_injOn (candName name) hmem hinj
  rw [Finset.card_range] at hcard
  have := names.toFinset_card_le
  omega

lemma uniqueNameAux_spec (names : List String) (name : String) :
    ∀ fuel k, (∃ j, j < fuel ∧ objExistsL names (candName name (k + j)) = false) →
      ∃ i, uniqueNameAux names name fuel k = candName name (k + i) ∧
        objExistsL names (candName name (k + i)) = false ∧
        ∀ j < i, objExistsL names (candName name (k + j)) = true := by
  intro fuel
  induction fuel with
  | zero =>
      rintro k ⟨j, hj, -⟩
      omega
  | succ f ih =>
      intro k hex
      by_cases hk : objExistsL names (candName name k) = true
      · obtain ⟨j, hj, hfree⟩ := hex
        have hj0 : j ≠ 0 := by
          intro h0
          rw [h0, Nat.add_zero] at hfree
          rw [hk] at hfree
          cases hfree
        obtain ⟨j2, rfl⟩ : ∃ j2, j = j2 + 1 := ⟨j - 1, by omega⟩
        have hex2 : ∃ j3, j3 < f ∧ objExistsL names (candName name ((k + 1) + j3)) = false := by
          refine ⟨j2, by omega, ?_⟩
          have harith : (k + 1) + j2 = k + (j2 + 1) := by omega
          rw [harith]
          exact hfree
        obtain ⟨i, hi1, hi2, hi3⟩ := ih (k + 1) hex2
        refine ⟨i + 1, ?_, ?_, ?_⟩
        · show uniqueNameAux names name (f + 1) k = _
          unfold uniqueNameAux
          rw [if_pos hk, hi1]
          congr 1
          omega
        · have harith : k + (i + 1) = (k + 1) + i := by omega
          rw [harith]
          exact hi2
        · intro j hji
          cases j with
          | zero => simpa using hk
          | succ j3 =>
              have harith : k + (j3 + 1) = (k + 1) + j3 := by omega
              rw [harith]
              exact hi3 j3 (by omega)
      · have hkf : objExistsL names (candName name k) = false := by
          cases hb : objExistsL names (candName name k) with
          | false => rfl
          | true => exact absurd hb hk
        refine ⟨0, ?_, by simpa using hkf, by omega⟩
        show uniqueNameAux names name (f + 1) k = candName name (k + 0)
        unfold uniqueNameAux
        rw [if_neg hk]
        rw [Nat.add_zero]

/-- The collision loop returns the first candidate (name, name_1, name_2,
...) that does not exist in the scene: all earlier candidates exist. -/
lemma uniqueName_spec (names : List String) (name : String) :
    ∃ k, uniqueName names name = candName name k ∧
      objExistsL names (candName name k) = false ∧
      ∀ j < k, objExistsL names (candName name j) = true := by
  obtain ⟨j, hj, hfree⟩ := exists_free_cand names name
  have hex : ∃ j2, j2 < names.length + 1 ∧
      objExistsL names (candName name (0 + j2)) = false :=
    ⟨j, by omega, by simpa using hfree⟩
  obtain ⟨i, h1, h2, h3⟩ := uniqueNameAux_spec names name (names.length + 1) 0 hex
  exact ⟨i, by simpa using h1, by simpa using h2,
    fun j2 hji => by simpa using h3 j2 (by simpa using hji)⟩

/-- Counterexample to claim C4 as stated: for a LightEntry named key1 of
type aiAreaLight applied to an empty scene, the fresh collision-free
identifier is key1, but the creation call is passed key1Shape: after the
apply no object named key1 exists (the claim requires the created object
to be named key1), and the object recorded as created is the auto-created
transform. -/
theorem C4_counterexample :
    uniqueName (sceneNames emptyScene) "key1" = "key1" ∧
    (apply_light_properties allOk emptyScene [aiAreaEntry "key1"]).created = ["transform1"] ∧
    objExistsL (sceneNames (apply_light_properties allOk emptyScene
      [aiAreaEntry "key1"]).scene) "key1" = false ∧
    objExistsL (sceneNames (apply_light_properties allOk emptyScene
      [aiAreaEntry "key1"]).scene) "key1Shape" = true :=
  ⟨rfl, rfl, rfl, rfl⟩

/-- Claim C4 (amended): the applier computes the target identifier by
trying name, name_1, name_2, ... until one that does not exist in the
scene (the first free candidate is used, all earlier ones being taken);
every creation branch passes that fresh identifier as the requested node
name except the aiAreaLight branch, which requests identifierShape; hence
two spot entries named key1 yield objects key1 and key1_1 in an empty
scene, and key1_1 and key1_2 when key1 already exists. -/
theorem C4_collision_resolution :
    (∀ names name, ∃ k, uniqueName names name = candName name k ∧
        objExistsL names (candName name k) = false ∧
        ∀ j < k, objExistsL names (candName name j) = true) ∧
    (apply_light_properties allOk emptyScene
      [spotEntry "key1", spotEntry "key1"]).created = ["key1", "key1_1"] ∧
    (apply_light_properties allOk sceneWithKey1
      [spotEntry "key1", spotEntry "key1"]).created = ["key1_1", "key1_2"] :=
  ⟨uniqueName_spec, rfl, rfl⟩

/-- Witness for C4 (amended): on a scene holding only key1, the loop
returns the candidate of index 1 (key1_1), candidate 0 (key1) being
taken. -/
theorem C4_witness :
    uniqueName ["key1"] "key1" = candName "key1" 1 ∧
    objExistsL ["key1"] (candName "key1" 1) = false ∧
    objExistsL ["key1"] (candName "key1" 0) = true := by
  obtain ⟨k, h1, h2, h3⟩ := C4_collision_resolution.1 ["key1"] "key1"
  have he : candName "key1" k = candName "key1" 1 := h1.symm.trans (by decide)
  have hk : k = 1 := candName_inj "key1" he
  subst hk
  exact ⟨h1, h2, h3 0 (by omega)⟩

/-- Claim C5: the type heuristic of the applier is an ordered first-match
substring cascade: aiAreaLight, else aiMesh, else directional / point /
spot tested on the lowercased string, else the generic area-light
fallback; a type containing aiAreaLight takes the area-light path even if
it also contains point. -/
theorem C5_type_cascade :
    (∀ t, strContains t "aiAreaLight" = true → chooseKind t = .aiAreaLightNode) ∧
    (∀ t, strContains t "aiAreaLight" = false → strContains t "aiMesh" = true →
        chooseKind t = .meshNode) ∧
    (∀ t, strContains t "aiAreaLight" = false → strContains t "aiMesh" = false →
        strContains (strLower t) "directional" = true → chooseKind t = .directional) ∧
    (∀ t, strContains t "aiAreaLight" = false → strContains t "aiMesh" = false →
        strContains (strLower t) "directional" = false →
        strContains (strLower t) "point" = true → chooseKind t = .point) ∧
    (∀ t, strContains t "aiAreaLight" = false → strContains t "aiMesh" = false →
        strContains (strLower t) "directional" = false →
        strContains (strLower t) "point" = false →
        strContains (strLower t) "spot" = true → chooseKind t = .spot) ∧
    (∀ t, strContains t "aiAreaLight" = false → strContains t "aiMesh" = false →
        strContains (strLower t) "directional" = false →
        strContains (strLower t) "point" = false →
        strContains (strLower t) "spot" = false → chooseKind t = .areaFallback) ∧
    chooseKind "aiAreaLight_point" = .aiAreaLightNode := by
  refine ⟨?_, ?_, ?_, ?_, ?_, ?_, rfl⟩
  · intro t h1
    simp [chooseKind, h1]
  · intro t h1 h2
    simp [chooseKind, h1, h2]
  · intro t h1 h2 h3
    simp [chooseKind, h1, h2, h3]
  · intro t h1 h2 h3 h4
    simp [chooseKind, h1, h2, h3, h4]
  · intro t h1 h2 h3 h4 h5
    simp [chooseKind, h1, h2, h3, h4, h5]
  · intro t h1 h2 h3 h4 h5
    simp [chooseKind, h1, h2, h3, h4, h5]

/-- Witness for C5: the first branch of the cascade at a type string
containing aiAreaLight. -/
theorem C5_witness :
    chooseKind "aiAreaLightpoint" = .aiAreaLightNode :=
  C5_type_cascade.1 "aiAreaLightpoint" (by decide)

lemma applyEntry_selection (ok : Bool) (acc : ApplyAcc) (e : LightEntry) :
    (applyEntry ok acc e).scene.selection = acc.scene.selection := by
  cases ok with
  | false => rfl
  | true =>
      cases hk : chooseKind e.type <;>
        simp [applyEntry, hk, createShapeNode, createLightCmd]

lemma applyGo_selection (oracle : ℕ → Bool) :
    ∀ (es : List LightEntry) (i : ℕ) (acc : ApplyAcc),
      (applyGo oracle es i acc).scene.selection = acc.scene.selection := by
  intro es
  induction es with
  | nil => intro i acc; rfl
  | cons e es ih =>
      intro i acc
      show (applyGo oracle es (i + 1) (applyEntry (oracle i) acc e)).scene.selection = _
      rw [ih, applyEntry_selection]

lemma applyEntry_created (ok : Bool) (acc : ApplyAcc) (e : LightEntry) :
    (applyEntry ok acc e).created.length =
      acc.created.length + (if ok then 1 else 0) := by
  cases ok with
  | false => rfl
  | true =>
      cases hk : chooseKind e.type <;>
        simp [applyEntry, hk]

lemma applyGo_created_length (oracle : ℕ → Bool) :
    ∀ (es : List LightEntry) (i : ℕ) (acc : ApplyAcc),
      (applyGo oracle es i acc).created.length =
        acc.created.length + (List.range es.length).countP (fun j => oracle (i + j)) := by
  intro es
  induction es with
  | nil => intro i acc; simp [applyGo]
  | cons e es ih =>
      intro i acc
      show (applyGo oracle es (i + 1) (applyEntry (oracle i) acc e)).created.length = _
      rw [ih, applyEntry_created]
      have hfn : ((fun j => oracle (i + j)) ∘ Nat.succ) = (fun j => oracle ((i + 1) + j)) := by
        funext j
        have harith : i + (j + 1) = (i + 1) + j := by omega
        simp [Function.comp, Nat.succ_eq_add_one, harith]
      rw [List.length_cons, List.range_succ_eq_map, List.countP_cons, List.countP_map, hfn]
      simp only [Nat.add_zero]
      omega

/-- Claim C6: apply_light_properties is total (every failure path is
caught and becomes an ordinary result); it returns success iff at least
one light object was created, on success the created objects end selected
in the scene (on failure the selection is untouched), and per-light
creation failures do not prevent attempting the remaining lights: exactly
one object is created per successful creation among all N entries. -/
theorem C6_apply_result (oracle : ℕ → Bool) (sc : Scene) (entries : List LightEntry) :
    ((apply_light_properties oracle sc entries).ok = true ↔
      (apply_light_properties oracle sc entries).created ≠ []) ∧
    ((apply_light_properties oracle sc entries).ok = true →
      (apply_light_properties oracle sc entries).scene.selection =
        (apply_light_properties oracle sc entries).created) ∧
    ((apply_light_properties oracle sc entries).ok = false →
      (apply_light_properties oracle sc entries).scene.selection = sc.selection) ∧
    (apply_light_properties oracle sc entries).created.length =
      (List.range entries.length).countP (fun i => oracle i) := by
  have hsel := applyGo_selection oracle entries 0 ⟨sc, []⟩
  have hlen := applyGo_created_length oracle entries 0 ⟨sc, []⟩
  simp only [Nat.zero_add] at hlen
  unfold apply_light_properties
  by_cases hemp : (applyGo oracle entries 0 ⟨sc, []⟩).created.isEmpty
  · have hnil : (applyGo oracle entries 0 ⟨sc, []⟩).created = [] := by
      simpa [List.isEmpty_iff] using hemp
    simp only [hemp, if_true]
    refine ⟨by simp [hnil], by simp, fun _ => hsel, ?_⟩
    rw [hnil] at hlen ⊢
    simp only [List.length_nil] at hlen ⊢
    omega
  · have hne : (applyGo oracle entries 0 ⟨sc, []⟩).created ≠ [] := by
      simpa [List.isEmpty_iff] using hemp
    simp only [hemp, if_false]
    exact ⟨by simp [hne], fun _ => rfl, by simp, by simpa using hlen⟩

/-- Witness for C6: one spot entry applied to the empty scene succeeds and
the created object ends selected. -/
theorem C6_witness :
    (apply_light_properties allOk emptyScene [spotEntry "a"]).ok = true ∧
    (apply_light_properties allOk emptyScene [spotEntry "a"]).scene.selection = ["a"] := by
  have h := C6_apply_result allOk emptyScene [spotEntry "a"]
  have hok : (apply_light_properties allOk emptyScene [spotEntry "a"]).ok = true := rfl
  exact ⟨hok, (h.2.1 hok).trans rfl⟩

end LightFinder
